import Mathlib

/-!
Verification development for the GradientPrediction repository.

The relevant program parts are shallowly embedded:
* `mixedInputModel.py`: the masked hidden layer (`create_hidden_layer`), the
  deterministic-removal feed helper (`feed_det_remove`), the model hyper
  parameters (`N_DENSE`, `N_HIDDEN`);
* `zf_retrain.py` / `ce_retrain.py`: the two-phase `retrain` loop and the
  batch drivers in their `__main__` blocks, embedded as trace-producing
  functions over an explicit filesystem state;
* `trainingGround.py`: the rank-error computation (`sum_rank_diffs`).

Real-valued tensor arithmetic is embedded over `ℚ`; the IEEE-754 special
values that the claim about degenerate masks turns on (division by zero
giving infinity, `0 * inf` giving NaN) are embedded by the dedicated carrier
type `FVal`.
-/

namespace GradientPrediction

/-! ### Masked hidden layer, from `mixedInputModel.create_hidden_layer`

The layer computes `relu((matmul(prev_out, w) + b) * det_remove * scale)`
with `scale = n_units / reduce_sum(det_remove)`, for one input row. -/

/-- `tf.nn.relu` on an exact scalar. -/
def relu (q : ℚ) : ℚ := max q 0

/-- Pre-activation of unit `j`: `(matmul(prev_out, w) + b)[j]` for a single
input row `x`. -/
def preAct {m n : ℕ} (x : Fin m → ℚ) (w : Fin m → Fin n → ℚ) (b : Fin n → ℚ)
    (j : Fin n) : ℚ :=
  (∑ i, x i * w i j) + b j

/-- Unit `j` of the hidden layer built by `create_hidden_layer`
(`mixedInputModel.py` lines 24-28): the pre-activation is multiplied
elementwise by the removal vector `v` and by
`scale = n_units / reduce_sum(v)`, then passed through `relu`. -/
def create_hidden_layer {m n : ℕ} (x : Fin m → ℚ) (w : Fin m → Fin n → ℚ)
    (b : Fin n → ℚ) (v : Fin n → ℚ) (j : Fin n) : ℚ :=
  relu (preAct x w b j * v j * ((n : ℚ) / ∑ k, v k))

/-- C1: For every hidden layer with `n` units, input row `x`, weights `w`,
bias `b`, and binary removal vector `v` with `sum v > 0`, the layer output is
`relu((x·w + b) ⊙ v * (n / sum v))` (this is `create_hidden_layer` by
definition), and when all retained units have equal activation `a` the summed
post-mask activation equals the summed pre-mask activation of the retained
units scaled by exactly `n / sum v`; that retained pre-mask sum is
`(sum v) * a`. -/
theorem masked_layer_sum_invariant {m n : ℕ} (x : Fin m → ℚ) (w : Fin m → Fin n → ℚ)
    (b : Fin n → ℚ) (v : Fin n → ℚ) (a : ℚ)
    (hbin : ∀ j, v j = 0 ∨ v j = 1) (hs : 0 < ∑ k, v k)
    (heq : ∀ j, v j = 1 → relu (preAct x w b j) = a) :
    (∑ j, create_hidden_layer x w b v j)
      = ((n : ℚ) / ∑ k, v k) * ∑ j, v j * relu (preAct x w b j)
    ∧ (∑ j, v j * relu (preAct x w b j)) = (∑ k, v k) * a := by
  have hc : (0 : ℚ) ≤ (n : ℚ) / ∑ k, v k :=
    div_nonneg (by positivity) (le_of_lt hs)
  constructor
  · rw [Finset.mul_sum]
    refine Finset.sum_congr rfl fun j _ => ?_
    rcases hbin j with h0 | h1
    · simp [create_hidden_layer, relu, h0]
    · rw [h1, one_mul]
      unfold create_hidden_layer relu
      rw [h1, mul_one, mul_comm, mul_max_of_nonneg _ _ hc, mul_zero]
  · have : ∀ j ∈ Finset.univ, v j * relu (preAct x w b j) = v j * a := by
      intro j _
      rcases hbin j with h0 | h1
      · rw [h0, zero_mul, zero_mul]
      · rw [heq j h1]
    rw [Finset.sum_congr rfl this, ← Finset.sum_mul]

/-- Witness for C1 at a concrete layer: `m = 1`, `n = 2`, `x = [3]`,
`w = [[2, 5]]`, `b = [0, 0]`, `v = [1, 0]`, retained activation `a = 6`. -/
theorem masked_layer_sum_invariant_witness :
    ((0 : ℚ) < ∑ k, (![(1 : ℚ), 0]) k) ∧
    ((∑ j, create_hidden_layer ![(3 : ℚ)] ![![2, 5]] ![0, 0] ![1, 0] j)
        = (((2 : ℕ) : ℚ) / ∑ k, (![(1 : ℚ), 0]) k)
            * ∑ j, (![(1 : ℚ), 0]) j * relu (preAct ![(3 : ℚ)] ![![2, 5]] ![0, 0] j)
      ∧ (∑ j, (![(1 : ℚ), 0]) j * relu (preAct ![(3 : ℚ)] ![![2, 5]] ![0, 0] j))
          = (∑ k, (![(1 : ℚ), 0]) k) * 6) :=
  ⟨by norm_num [Fin.sum_univ_two],
   masked_layer_sum_invariant ![(3 : ℚ)] ![![2, 5]] ![0, 0] ![1, 0] 6
     (by intro j; fin_cases j <;> simp)
     (by norm_num [Fin.sum_univ_two])
     (by
       intro j hj
       fin_cases j
       · norm_num [preAct, relu, Fin.sum_univ_one]
       · simp at hj)⟩

/-! ### IEEE-754 special values for the degenerate all-zero mask

`create_hidden_layer` computes `scale = n_units / tf.reduce_sum(det_remove)`
with no guard: under float semantics a positive count divided by zero gives
`+inf`, and `0 * inf` gives NaN. `FVal` carries exactly the special values
this path produces. -/

inductive FVal
  | num (q : ℚ)
  | pinf
  | ninf
  | nan
deriving DecidableEq

/-- IEEE addition on `FVal`. -/
def fadd : FVal → FVal → FVal
  | .num a, .num b => .num (a + b)
  | .num _, .pinf => .pinf
  | .pinf, .num _ => .pinf
  | .num _, .ninf => .ninf
  | .ninf, .num _ => .ninf
  | .pinf, .pinf => .pinf
  | .ninf, .ninf => .ninf
  | _, _ => .nan

/-- IEEE multiplication on `FVal`: `0 * inf = NaN`. -/
def fmul : FVal → FVal → FVal
  | .num a, .num b => .num (a * b)
  | .num a, .pinf => if 0 < a then .pinf else if a < 0 then .ninf else .nan
  | .pinf, .num a => if 0 < a then .pinf else if a < 0 then .ninf else .nan
  | .num a, .ninf => if 0 < a then .ninf else if a < 0 then .pinf else .nan
  | .ninf, .num a => if 0 < a then .ninf else if a < 0 then .pinf else .nan
  | .pinf, .pinf => .pinf
  | .ninf, .ninf => .pinf
  | .pinf, .ninf => .ninf
  | .ninf, .pinf => .ninf
  | _, _ => .nan

/-- IEEE division on `FVal`: a positive finite value divided by zero is
`+inf`, `0 / 0` is NaN. -/
def fdiv : FVal → FVal → FVal
  | .num a, .num b =>
      if b = 0 then (if 0 < a then .pinf else if a < 0 then .ninf else .nan)
      else .num (a / b)
  | .pinf, .num b => if 0 ≤ b then .pinf else .ninf
  | .ninf, .num b => if 0 ≤ b then .ninf else .pinf
  | .num _, .pinf => .num 0
  | .num _, .ninf => .num 0
  | _, _ => .nan

/-- `tf.nn.relu` on `FVal`; NaN propagates. -/
def frelu : FVal → FVal
  | .num a => .num (max a 0)
  | .pinf => .pinf
  | .ninf => .num 0
  | .nan => .nan

/-- `tf.reduce_sum` over a vector of `FVal`. -/
def fsum (l : List FVal) : FVal := l.foldr fadd (.num 0)

/-- `create_hidden_layer` (`mixedInputModel.py` lines 24-28) under IEEE
special-value semantics, for one input row `x`; `wcols` are the weight
columns, `bs` the biases, `v` the removal vector:
`relu((x·w + b) * v * (n_units / reduce_sum v))` per unit. -/
def create_hidden_layer_f (n_units : ℕ) (x : List FVal) (wcols : List (List FVal))
    (bs : List FVal) (v : List FVal) : List FVal :=
  let scale := fdiv (.num (n_units : ℚ)) (fsum v)
  List.zipWith (fun pv vj => frelu (fmul (fmul pv vj) scale))
    (List.zipWith (fun wc bj => fadd (fsum (List.zipWith fmul x wc)) bj) wcols bs) v

/-- C2: the code raises no `InvalidMaskError` (no such guard or exception
exists in `create_hidden_layer`); at the concrete all-zero removal vector
`v = [0, 0]` for a 2-unit layer the scale is `2 / 0 = +inf` and every
output unit of the layer is NaN, contradicting the claim that the layer
raises and never returns NaN or Inf. -/
theorem zero_mask_scale_inf_output_nan :
    fdiv (.num ((2 : ℕ) : ℚ)) (fsum [FVal.num 0, FVal.num 0]) = FVal.pinf
    ∧ create_hidden_layer_f 2 [FVal.num 3] [[FVal.num 2], [FVal.num 5]]
        [FVal.num 0, FVal.num 0] [FVal.num 0, FVal.num 0]
      = [FVal.nan, FVal.nan] := by
  constructor <;> norm_num [create_hidden_layer_f, fdiv, fsum, fadd, fmul, frelu]

/-! ### Two-phase retrain loop, from `zf_retrain.retrain` and
`ce_retrain.retrain`

Both scripts share the same loop: `global_step` starts at 0; while
`global_step < epoch_1_size` an iteration first calls `test()` when
`global_step % EVAL_TEST_EVERY == 0` (drawing a `TESTSIZE` batch from the
held-out test set, predicting under the mask, appending the step and rank
error to the run log) and then draws one `BATCHSIZE` training batch from the
first dataset and applies one masked/filtered training step; the second
`while` continues the same counter against the second dataset up to
`epoch_1_size + epoch_2_size`; finally the model state is saved.  The loop
is embedded as the trace of these observable actions. -/

def BATCHSIZE : ℕ := 32
def TESTSIZE : ℕ := 128
def EVAL_TEST_EVERY : ℕ := 50

/-- One observable action of a retrain run: `test s ts` is an evaluation at
global step `s` on a test batch of `ts` samples (appending `(s, error)` to
the run log), `train d bs s` is one training step at global step `s` on a
batch of `bs` samples drawn from dataset `d` (1 = the run's first dataset,
2 = its second), `save s` persists the checkpoint at global step `s`. -/
inductive Event
  | test (step : ℕ) (testSize : ℕ)
  | train (dataset : ℕ) (batchSize : ℕ) (step : ℕ)
  | save (step : ℕ)
deriving DecidableEq

/-- Actions of one loop iteration of `retrain` at `global_step = step`. -/
def stepEvents (dataset step : ℕ) : List Event :=
  (if step % EVAL_TEST_EVERY = 0 then [Event.test step TESTSIZE] else [])
    ++ [Event.train dataset BATCHSIZE step]

/-- One `while` phase of `retrain`: starting at `global_step = start`, run
`remaining` more iterations drawing training batches from `dataset`. -/
def runPhase (dataset start remaining : ℕ) : List Event :=
  match remaining with
  | 0 => []
  | r + 1 => stepEvents dataset start ++ runPhase dataset (start + 1) r

/-- The `retrain` function (`zf_retrain.py` lines 34-66, `ce_retrain.py`
lines 34-68) as its trace: one epoch on the first dataset, one epoch on the
second continuing the shared global step counter, then one save at the final
global step.  `size1` and `size2` are the `data_size` values of the two
training datasets, so the epoch sizes are `size1 / BATCHSIZE` and
`size2 / BATCHSIZE`. -/
def retrain (size1 size2 : ℕ) : List Event :=
  runPhase 1 0 (size1 / BATCHSIZE)
    ++ runPhase 2 (size1 / BATCHSIZE) (size2 / BATCHSIZE)
    ++ [Event.save (size1 / BATCHSIZE + size2 / BATCHSIZE)]

/-- Is an event a training step? -/
def isTrain : Event → Bool
  | .train _ _ _ => true
  | _ => false

/-- The `(dataset, step)` pairs of the training steps of a trace, in
order. -/
def trainLog (t : List Event) : List (ℕ × ℕ) :=
  t.filterMap fun e => match e with
    | .train d _ s => some (d, s)
    | _ => none

/-- The `(step, testSize)` pairs of the evaluations of a trace, in order;
the steps are exactly the `test_steps` list that `retrain` writes to the
run log. -/
def testLog (t : List Event) : List (ℕ × ℕ) :=
  t.filterMap fun e => match e with
    | .test s ts => some (s, ts)
    | _ => none

theorem trainLog_append (a b : List Event) :
    trainLog (a ++ b) = trainLog a ++ trainLog b :=
  List.filterMap_append _ _ _

theorem testLog_append (a b : List Event) :
    testLog (a ++ b) = testLog a ++ testLog b :=
  List.filterMap_append _ _ _

theorem trainLog_runPhase (d start r : ℕ) :
    trainLog (runPhase d start r) = (List.range r).map (fun k => (d, start + k)) := by
  induction r generalizing start with
  | zero => rfl
  | succ r ih =>
    rw [runPhase, trainLog_append, ih, List.range_succ_eq_map, List.map_cons,
      List.map_map]
    have h1 : trainLog (stepEvents d start) = [(d, start)] := by
      unfold stepEvents
      by_cases h : start % EVAL_TEST_EVERY = 0
      · rw [if_pos h]; rfl
      · rw [if_neg h]; rfl
    have h2 : (fun k => (d, start + 1 + k)) = ((fun k => (d, start + k)) ∘ Nat.succ) := by
      funext k
      exact congrArg (Prod.mk d) (by omega)
    rw [h1, h2]
    rfl

theorem testLog_runPhase (d start r : ℕ) :
    testLog (runPhase d start r)
      = (((List.range r).map (fun k => start + k)).filter
          (fun s => s % EVAL_TEST_EVERY = 0)).map (fun s => (s, TESTSIZE)) := by
  induction r generalizing start with
  | zero => rfl
  | succ r ih =>
    rw [runPhase, testLog_append, ih, List.range_succ_eq_map, List.map_cons,
      List.map_map]
    have h1 : testLog (stepEvents d start)
        = if start % EVAL_TEST_EVERY = 0 then [(start, TESTSIZE)] else [] := by
      unfold stepEvents
      by_cases h : start % EVAL_TEST_EVERY = 0
      · rw [if_pos h, if_pos h]; rfl
      · rw [if_neg h, if_neg h]; rfl
    have h2 : (fun k => start + 1 + k) = ((fun k => start + k) ∘ Nat.succ) := by
      funext k
      show start + 1 + k = start + Nat.succ k
      omega
    rw [h1, h2, List.filter_cons]
    by_cases h : start % EVAL_TEST_EVERY = 0
    · rw [if_pos h]
      have hd : (decide ((start + 0) % EVAL_TEST_EVERY = 0)) = true := by
        simpa using h
      rw [hd]
      rfl
    · rw [if_neg h]
      have hd : (decide ((start + 0) % EVAL_TEST_EVERY = 0)) = false := by
        simpa using h
      rw [hd]
      rfl

theorem length_filter_isTrain_runPhase (d start r : ℕ) :
    ((runPhase d start r).filter isTrain).length = r := by
  induction r generalizing start with
  | zero => rfl
  | succ r ih =>
    have hstep : ((stepEvents d start).filter isTrain).length = 1 := by
      unfold stepEvents
      by_cases h : start % EVAL_TEST_EVERY = 0
      · rw [if_pos h]; rfl
      · rw [if_neg h]; rfl
    rw [runPhase, List.filter_append, List.length_append, ih, hstep]
    omega

/-- C3: for every pair of training-dataset sizes and batch size 32, a
retrain run performs exactly `size1 / 32 + size2 / 32` training steps (one
epoch per dataset); in particular for sizes 320 and 160 it performs exactly
`10 + 5 = 15` training steps. -/
theorem retrain_train_step_count :
    (∀ size1 size2 : ℕ,
        ((retrain size1 size2).filter isTrain).length
          = size1 / BATCHSIZE + size2 / BATCHSIZE)
    ∧ ((retrain 320 160).filter isTrain).length = 10 + 5 := by
  have main : ∀ size1 size2 : ℕ,
      ((retrain size1 size2).filter isTrain).length
        = size1 / BATCHSIZE + size2 / BATCHSIZE := by
    intro s1 s2
    rw [retrain, List.filter_append, List.filter_append, List.length_append,
      List.length_append, length_filter_isTrain_runPhase,
      length_filter_isTrain_runPhase]
    rfl
  exact ⟨main, by rw [main]; rfl⟩

theorem testLog_save (n : ℕ) : testLog [Event.save n] = [] := rfl

theorem trainLog_save (n : ℕ) : trainLog [Event.save n] = [] := rfl

theorem runPhase_test_then_train (d r s : ℕ) (hs : s % EVAL_TEST_EVERY = 0) :
    ∀ start, start ≤ s → s < start + r →
      ∃ pre post, runPhase d start r
        = pre ++ Event.test s TESTSIZE :: Event.train d BATCHSIZE s :: post := by
  induction r with
  | zero => intro start h1 h2; omega
  | succ r ih =>
    intro start h1 h2
    rcases Nat.eq_or_lt_of_le h1 with heq | hlt
    · subst heq
      refine ⟨[], runPhase d (start + 1) r, ?_⟩
      rw [runPhase]
      unfold stepEvents
      rw [if_pos hs]
      rfl
    · obtain ⟨pre, post, hp⟩ := ih (start + 1) hlt (by omega)
      exact ⟨stepEvents d start ++ pre, post,
        by rw [runPhase, hp, List.append_assoc]⟩

/-- C4: in every retrain run the evaluations happen exactly at the global
steps that are multiples of `EVAL_TEST_EVERY = 50` and less than the total
step count, each drawing a `TESTSIZE = 128` test batch and appending its
`(step, error)` pair to the run log in step order; at each such step the
evaluation comes immediately before that step's single 32-sample training
step, and at all other steps no evaluation occurs. -/
theorem retrain_eval_schedule (size1 size2 : ℕ) :
    testLog (retrain size1 size2)
        = ((List.range (size1 / BATCHSIZE + size2 / BATCHSIZE)).filter
            (fun s => s % EVAL_TEST_EVERY = 0)).map (fun s => (s, TESTSIZE))
    ∧ ∀ s, s % EVAL_TEST_EVERY = 0 → s < size1 / BATCHSIZE + size2 / BATCHSIZE →
        ∃ pre post d, retrain size1 size2
          = pre ++ Event.test s TESTSIZE :: Event.train d BATCHSIZE s :: post := by
  constructor
  · rw [retrain, testLog_append, testLog_append, testLog_runPhase,
      testLog_runPhase, List.range_add, List.filter_append, List.map_append]
    have h0 : (List.range (size1 / BATCHSIZE)).map (fun k => 0 + k)
        = List.range (size1 / BATCHSIZE) := by
      simpa using List.map_congr_left (fun a _ => Nat.zero_add a)
    rw [h0]
    simp [testLog_save]
  · intro s hs hlt
    by_cases hcase : s < size1 / BATCHSIZE
    · obtain ⟨pre, post, hp⟩ :=
        runPhase_test_then_train 1 (size1 / BATCHSIZE) s hs 0 (Nat.zero_le s)
          (by omega)
      refine ⟨pre,
        post ++ runPhase 2 (size1 / BATCHSIZE) (size2 / BATCHSIZE)
          ++ [Event.save (size1 / BATCHSIZE + size2 / BATCHSIZE)], 1, ?_⟩
      rw [retrain, hp]
      simp
    · obtain ⟨pre, post, hp⟩ :=
        runPhase_test_then_train 2 (size2 / BATCHSIZE) s hs (size1 / BATCHSIZE)
          (by omega) (by omega)
      refine ⟨runPhase 1 0 (size1 / BATCHSIZE) ++ pre,
        post ++ [Event.save (size1 / BATCHSIZE + size2 / BATCHSIZE)], 2, ?_⟩
      rw [retrain, hp]
      simp

/-- Witness for C4 at `size1 = 320`, `size2 = 160`, step `s = 0`. -/
theorem retrain_eval_schedule_witness :
    ∃ pre post d, retrain 320 160
      = pre ++ Event.test 0 TESTSIZE :: Event.train d BATCHSIZE 0 :: post :=
  (retrain_eval_schedule 320 160).2 0 (by decide) (by decide)

/-- C5 counterexample: in the retrain run with dataset sizes 320 and 160
(15 total steps) the code does evaluate at global step 0, because
`0 % EVAL_TEST_EVERY == 0` holds in the very first loop iteration — the
claim says no evaluation occurs at step 0. -/
theorem retrain_320_160_evaluates_at_step_zero :
    Event.test 0 TESTSIZE ∈ retrain 320 160 := by decide

/-- C5 amended: in the 15-step retrain run (sizes 320 and 160) exactly one
evaluation occurs, at global step 0; no evaluation occurs at step 50, nor at
any step past the final completed step. -/
theorem retrain_320_160_eval_log :
    testLog (retrain 320 160) = [(0, TESTSIZE)] := by decide

/-- C6: in every retrain run the phase-1 training batches (steps below
`epoch_1_size`) are all drawn from the run's first dataset and the phase-2
batches from its second dataset, the global step counter continuing across
the phases from 0 to `epoch_1_size + epoch_2_size - 1` without reset, and
the final checkpoint save happens at global step
`epoch_1_size + epoch_2_size`. -/
theorem retrain_phase_datasets (size1 size2 : ℕ) :
    trainLog (retrain size1 size2)
        = (List.range (size1 / BATCHSIZE + size2 / BATCHSIZE)).map
            (fun s => (if s < size1 / BATCHSIZE then 1 else 2, s))
    ∧ (retrain size1 size2).getLast?
        = some (Event.save (size1 / BATCHSIZE + size2 / BATCHSIZE)) := by
  constructor
  · rw [retrain, trainLog_append, trainLog_append, trainLog_runPhase,
      trainLog_runPhase, List.range_add, List.map_append, List.map_map]
    have h1 : (List.range (size1 / BATCHSIZE)).map
          (fun s => ((if s < size1 / BATCHSIZE then 1 else 2 : ℕ), s))
        = (List.range (size1 / BATCHSIZE)).map (fun k => ((1 : ℕ), 0 + k)) := by
      refine List.map_congr_left fun a ha => ?_
      rw [List.mem_range] at ha
      rw [if_pos ha, Nat.zero_add]
    have h2 : (List.range (size2 / BATCHSIZE)).map
          ((fun s => ((if s < size1 / BATCHSIZE then 1 else 2 : ℕ), s))
            ∘ (size1 / BATCHSIZE + ·))
        = (List.range (size2 / BATCHSIZE)).map
            (fun k => ((2 : ℕ), size1 / BATCHSIZE + k)) := by
      refine List.map_congr_left fun a _ => ?_
      have : ¬ size1 / BATCHSIZE + a < size1 / BATCHSIZE := by omega
      simp [Function.comp, if_neg this]
    rw [h1, h2]
    simp [trainLog_save]
  · rw [retrain]
    exact List.getLast?_concat _

/-! ### Batch drivers, from the `__main__` blocks of `zf_retrain.py`
(lines 95-117) and `ce_retrain.py` (lines 99-125)

Each driver loops over the model directories; for each model it checks
whether a condition's output folder already exists before creating it and
retraining.  The filesystem is an explicit list of existing output folders;
`os.mkdir` fails on an existing folder. -/

/-- The two ablation-condition output folders of one model instance: in
`zf_retrain.py` `first` is `fl_retrain` and `second` is `nfl_retrain`; in
`ce_retrain.py` `first` is `cel_tbranch_retrain` and `second` is
`cel_nontbranch_retrain`. -/
inductive Cond
  | first
  | second
deriving DecidableEq

/-- An output directory, identified by model index and condition folder. -/
abbrev Path := ℕ × Cond

/-- `os.mkdir`: raises `FileExistsError` on an existing directory. -/
def mkdir (fs : List Path) (p : Path) : Except String (List Path) :=
  if p ∈ fs then Except.error "FileExistsError" else Except.ok (p :: fs)

/-- One iteration of the `zf_retrain.py` model loop: if the `fl_retrain`
folder exists the whole model is skipped (`continue`) without checking the
`nfl_retrain` folder; otherwise the fish-like condition is retrained, and
afterwards the fish-unlike condition is skipped (`continue`) when its own
folder exists, else retrained too.  Returns the updated filesystem and the
trace of events performed for this model. -/
def zfModel (size1 size2 : ℕ) (fs : List Path) (i : ℕ) :
    Except String (List Path × List Event) :=
  if (i, Cond.first) ∈ fs then Except.ok (fs, [])
  else
    match mkdir fs (i, Cond.first) with
    | Except.error e => Except.error e
    | Except.ok fs1 =>
      if (i, Cond.second) ∈ fs1 then Except.ok (fs1, retrain size1 size2)
      else
        match mkdir fs1 (i, Cond.second) with
        | Except.error e => Except.error e
        | Except.ok fs2 =>
          Except.ok (fs2, retrain size1 size2 ++ retrain size1 size2)

/-- One iteration of the `ce_retrain.py` model loop: an existing
`cel_tbranch_retrain` folder skips only that sub-phase (plain `else`
branch), after which the `cel_nontbranch_retrain` folder is still checked;
that second folder existing skips the rest of the iteration
(`continue`). -/
def ceModel (size1 size2 : ℕ) (fs : List Path) (i : ℕ) :
    Except String (List Path × List Event) :=
  let step1 : Except String (List Path × List Event) :=
    if (i, Cond.first) ∈ fs then Except.ok (fs, [])
    else
      match mkdir fs (i, Cond.first) with
      | Except.error e => Except.error e
      | Except.ok fs1 => Except.ok (fs1, retrain size1 size2)
  match step1 with
  | Except.error e => Except.error e
  | Except.ok (fs1, ev1) =>
    if (i, Cond.second) ∈ fs1 then Except.ok (fs1, ev1)
    else
      match mkdir fs1 (i, Cond.second) with
      | Except.error e => Except.error e
      | Except.ok fs2 => Except.ok (fs2, ev1 ++ retrain size1 size2)

/-- The top-level loop of a driver: process each model index in turn,
threading the filesystem and concatenating the event traces; any raised
exception aborts the batch. -/
def driverLoop (pm : List Path → ℕ → Except String (List Path × List Event)) :
    List Path → List ℕ → Except String (List Path × List Event)
  | fs, [] => Except.ok (fs, [])
  | fs, i :: rest =>
    match pm fs i with
    | Except.error e => Except.error e
    | Except.ok (fs1, ev) =>
      match driverLoop pm fs1 rest with
      | Except.error e => Except.error e
      | Except.ok (fs2, ev2) => Except.ok (fs2, ev ++ ev2)

/-- The whole `zf_retrain.py` batch driver over the given model indices. -/
def zfDriver (size1 size2 : ℕ) (fs : List Path) (models : List ℕ) :
    Except String (List Path × List Event) :=
  driverLoop (zfModel size1 size2) fs models

/-- The whole `ce_retrain.py` batch driver over the given model indices. -/
def ceDriver (size1 size2 : ℕ) (fs : List Path) (models : List ℕ) :
    Except String (List Path × List Event) :=
  driverLoop (ceModel size1 size2) fs models

theorem driverLoop_skip_all
    (pm : List Path → ℕ → Except String (List Path × List Event))
    (fs : List Path) (models : List ℕ)
    (h : ∀ i ∈ models, pm fs i = Except.ok (fs, [])) :
    driverLoop pm fs models = Except.ok (fs, []) := by
  induction models with
  | nil => rfl
  | cons i rest ih =>
    rw [driverLoop]
    simp only [h i (List.mem_cons_self i rest),
      ih fun j hj => h j (List.mem_cons_of_mem i hj), List.nil_append]

theorem mkdir_of_not_mem (fs : List Path) (p : Path) (h : p ∉ fs) :
    mkdir fs p = Except.ok (p :: fs) := by
  simp [mkdir, h]

theorem zfModel_post (size1 size2 : ℕ) (fs : List Path) (i : ℕ)
    (fs1 : List Path) (ev : List Event)
    (h : zfModel size1 size2 fs i = Except.ok (fs1, ev)) :
    fs ⊆ fs1 ∧ (i, Cond.first) ∈ fs1 := by
  by_cases h1 : (i, Cond.first) ∈ fs
  · simp only [zfModel, if_pos h1, Except.ok.injEq, Prod.mk.injEq] at h
    obtain ⟨rfl, -⟩ := h
    exact ⟨List.Subset.refl _, h1⟩
  · by_cases h2 : (i, Cond.second) ∈ (i, Cond.first) :: fs
    · simp only [zfModel, if_neg h1, mkdir_of_not_mem fs _ h1, if_pos h2,
        Except.ok.injEq, Prod.mk.injEq] at h
      obtain ⟨rfl, -⟩ := h
      exact ⟨fun a ha => List.mem_cons_of_mem _ ha, List.mem_cons_self _ _⟩
    · simp only [zfModel, if_neg h1, mkdir_of_not_mem fs _ h1, if_neg h2,
        mkdir_of_not_mem _ _ h2, Except.ok.injEq, Prod.mk.injEq] at h
      obtain ⟨rfl, -⟩ := h
      exact ⟨fun a ha => List.mem_cons_of_mem _ (List.mem_cons_of_mem _ ha),
        List.mem_cons_of_mem _ (List.mem_cons_self _ _)⟩

theorem ceModel_post (size1 size2 : ℕ) (fs : List Path) (i : ℕ)
    (fs1 : List Path) (ev : List Event)
    (h : ceModel size1 size2 fs i = Except.ok (fs1, ev)) :
    fs ⊆ fs1 ∧ (i, Cond.first) ∈ fs1 ∧ (i, Cond.second) ∈ fs1 := by
  by_cases h1 : (i, Cond.first) ∈ fs
  · by_cases h2 : (i, Cond.second) ∈ fs
    · simp only [ceModel, if_pos h1, if_pos h2, Except.ok.injEq, Prod.mk.injEq] at h
      obtain ⟨rfl, -⟩ := h
      exact ⟨List.Subset.refl _, h1, h2⟩
    · simp only [ceModel, if_pos h1, if_neg h2, mkdir_of_not_mem _ _ h2,
        Except.ok.injEq, Prod.mk.injEq] at h
      obtain ⟨rfl, -⟩ := h
      exact ⟨fun a ha => List.mem_cons_of_mem _ ha,
        List.mem_cons_of_mem _ h1, List.mem_cons_self _ _⟩
  · by_cases h2 : (i, Cond.second) ∈ (i, Cond.first) :: fs
    · simp only [ceModel, if_neg h1, mkdir_of_not_mem fs _ h1, if_pos h2,
        Except.ok.injEq, Prod.mk.injEq] at h
      obtain ⟨rfl, -⟩ := h
      have hsec : (i, Cond.second) ∈ (i, Cond.first) :: fs := h2
      exact ⟨fun a ha => List.mem_cons_of_mem _ ha, List.mem_cons_self _ _, hsec⟩
    · simp only [ceModel, if_neg h1, mkdir_of_not_mem fs _ h1, if_neg h2,
        mkdir_of_not_mem _ _ h2, Except.ok.injEq, Prod.mk.injEq] at h
      obtain ⟨rfl, -⟩ := h
      exact ⟨fun a ha => List.mem_cons_of_mem _ (List.mem_cons_of_mem _ ha),
        List.mem_cons_of_mem _ (List.mem_cons_self _ _), List.mem_cons_self _ _⟩

theorem driverLoop_post
    (pm : List Path → ℕ → Except String (List Path × List Event))
    (Q : ℕ → List Path → Prop)
    (hpm : ∀ fs i fs1 ev, pm fs i = Except.ok (fs1, ev) → fs ⊆ fs1 ∧ Q i fs1)
    (hmono : ∀ i fs1 fs2, Q i fs1 → fs1 ⊆ fs2 → Q i fs2) :
    ∀ models fs fs1 ev, driverLoop pm fs models = Except.ok (fs1, ev) →
      fs ⊆ fs1 ∧ ∀ i ∈ models, Q i fs1 := by
  intro models
  induction models with
  | nil =>
    intro fs fs1 ev h
    simp only [driverLoop, Except.ok.injEq, Prod.mk.injEq] at h
    obtain ⟨rfl, -⟩ := h
    exact ⟨List.Subset.refl _, by simp⟩
  | cons i rest ih =>
    intro fs fs1 ev h
    rw [driverLoop] at h
    cases hpi : pm fs i with
    | error e =>
      simp only [hpi] at h
      exact absurd h (by simp)
    | ok p =>
      obtain ⟨fsa, eva⟩ := p
      simp only [hpi] at h
      cases hrest : driverLoop pm fsa rest with
      | error e =>
        simp only [hrest] at h
        exact absurd h (by simp)
      | ok q =>
        obtain ⟨fsb, evb⟩ := q
        simp only [hrest, Except.ok.injEq, Prod.mk.injEq] at h
        obtain ⟨rfl, -⟩ := h
        obtain ⟨hsub1, hq1⟩ := hpm fs i fsa eva hpi
        obtain ⟨hsub2, hq2⟩ := ih fsa fsb evb hrest
        refine ⟨hsub1.trans hsub2, ?_⟩
        intro j hj
        rcases List.mem_cons.mp hj with rfl | hj2
        · exact hmono j fsa fsb hq1 hsub2
        · exact hq2 j hj2

/-- C7: an ablation condition whose target output folder already exists is
skipped with zero training steps and no exception, the batch continuing —
the zf driver skips the whole model when `fl_retrain` exists, the ce driver
skips per sub-phase — and invoking a whole batch driver a second time,
with the first run's output directories present, performs zero training
steps (empty event trace) and does not raise. -/
theorem existing_output_skips (size1 size2 : ℕ) :
    (∀ fs i, (i, Cond.first) ∈ fs →
        zfModel size1 size2 fs i = Except.ok (fs, []))
    ∧ (∀ fs i, (i, Cond.first) ∈ fs → (i, Cond.second) ∈ fs →
        ceModel size1 size2 fs i = Except.ok (fs, []))
    ∧ (∀ fs fs1 ev models, zfDriver size1 size2 fs models = Except.ok (fs1, ev) →
        zfDriver size1 size2 fs1 models = Except.ok (fs1, []))
    ∧ (∀ fs fs1 ev models, ceDriver size1 size2 fs models = Except.ok (fs1, ev) →
        ceDriver size1 size2 fs1 models = Except.ok (fs1, [])) := by
  have hz : ∀ fs i, (i, Cond.first) ∈ fs →
      zfModel size1 size2 fs i = Except.ok (fs, []) := by
    intro fs i h1
    simp [zfModel, if_pos h1]
  have hc : ∀ fs i, (i, Cond.first) ∈ fs → (i, Cond.second) ∈ fs →
      ceModel size1 size2 fs i = Except.ok (fs, []) := by
    intro fs i h1 h2
    simp [ceModel, if_pos h1, if_pos h2]
  refine ⟨hz, hc, ?_, ?_⟩
  · intro fs fs1 ev models h
    have post := driverLoop_post (zfModel size1 size2)
      (fun i f => (i, Cond.first) ∈ f)
      (fun f i f1 e hh => zfModel_post size1 size2 f i f1 e hh)
      (fun i f1 f2 hq hsub => hsub hq) models fs fs1 ev h
    exact driverLoop_skip_all _ fs1 models fun i hi => hz fs1 i (post.2 i hi)
  · intro fs fs1 ev models h
    have post := driverLoop_post (ceModel size1 size2)
      (fun i f => (i, Cond.first) ∈ f ∧ (i, Cond.second) ∈ f)
      (fun f i f1 e hh =>
        ⟨(ceModel_post size1 size2 f i f1 e hh).1,
         (ceModel_post size1 size2 f i f1 e hh).2.1,
         (ceModel_post size1 size2 f i f1 e hh).2.2⟩)
      (fun i f1 f2 hq hsub => ⟨hsub hq.1, hsub hq.2⟩) models fs fs1 ev h
    exact driverLoop_skip_all _ fs1 models
      fun i hi => hc fs1 i (post.2 i hi).1 (post.2 i hi).2

/-- Witness for C7: a model whose `fl_retrain` folder exists is skipped by
the zf driver with no training and no exception. -/
theorem existing_output_skips_witness :
    zfModel 320 160 [((0 : ℕ), Cond.first)] 0
      = Except.ok ([((0 : ℕ), Cond.first)], []) :=
  (existing_output_skips 320 160).1 [((0 : ℕ), Cond.first)] 0 (by decide)

/-- C8: when a model's first-condition folder exists and its
second-condition folder is absent, the zf driver skips the whole model
(`continue`), leaving the filesystem unchanged — the second sub-phase is
neither checked nor run — while the ce driver skips only the first
sub-phase and still checks the second folder, creating it and performing
that sub-phase's retrain. -/
theorem first_folder_skip_asymmetry (size1 size2 : ℕ) (fs : List Path) (i : ℕ)
    (h1 : (i, Cond.first) ∈ fs) (h2 : (i, Cond.second) ∉ fs) :
    zfModel size1 size2 fs i = Except.ok (fs, [])
    ∧ ceModel size1 size2 fs i
        = Except.ok ((i, Cond.second) :: fs, retrain size1 size2) := by
  constructor
  · simp [zfModel, if_pos h1]
  · simp [ceModel, if_pos h1, if_neg h2, mkdir_of_not_mem _ _ h2]

/-- Witness for C8 with `fs = [(0, first)]`. -/
theorem first_folder_skip_asymmetry_witness :
    zfModel 320 160 [((0 : ℕ), Cond.first)] 0
        = Except.ok ([((0 : ℕ), Cond.first)], [])
    ∧ ceModel 320 160 [((0 : ℕ), Cond.first)] 0
        = Except.ok ([((0 : ℕ), Cond.second), (0, Cond.first)], retrain 320 160) :=
  first_folder_skip_asymmetry 320 160 [((0 : ℕ), Cond.first)] 0
    (by decide) (by decide)

/-! ### Rank error, from `trainingGround.py` lines 44-50

For each batch row the code computes
`rank = np.unique(row, return_inverse=True)[1]` for target and prediction,
sums `np.abs(rank_real - rank_pred)` and divides the accumulated total by
the batch size. -/

/-- `np.unique(xs, return_inverse=True)[1]`: each element's index in the
sorted array of distinct values, i.e. the number of distinct values strictly
smaller; tied values receive the same rank. -/
def uniqueRank (xs : List ℚ) : List ℕ :=
  xs.map fun x => (xs.dedup.filter (fun y => y < x)).length

/-- One row's `np.sum(np.abs(rank_real - rank_pred))` from
`sum_rank_diffs`. -/
def rowRankDiff (target pred : List ℚ) : ℕ :=
  (List.zipWith (fun a b => ((a : ℤ) - (b : ℤ)).natAbs)
    (uniqueRank target) (uniqueRank pred)).sum

/-- The rank error of a batch: `sum_rank_diffs / BATCHSIZE`
(`trainingGround.py` lines 44-50), with the batch size the number of
rows. -/
def rank_error (targets preds : List (List ℚ)) : ℚ :=
  ((List.zipWith rowRankDiff targets preds).sum : ℚ) / (targets.length : ℚ)

/-- Ranking as the claim words it, for comparison with the code's
`uniqueRank`: ties broken by stable ascending order of original index, so
element `j`'s rank is the number of positions `i` holding a smaller value,
or an equal value with `i < j`. -/
def claimRank (xs : List ℚ) : List ℕ :=
  (List.range xs.length).map fun j =>
    ((List.range xs.length).filter
      (fun i => xs.getD i 0 < xs.getD j 0 ∨ (xs.getD i 0 = xs.getD j 0 ∧ i < j))).length

/-- Per-row rank difference under the claim's ranking. -/
def claimRowRankDiff (target pred : List ℚ) : ℕ :=
  (List.zipWith (fun a b => ((a : ℤ) - (b : ℤ)).natAbs)
    (claimRank target) (claimRank pred)).sum

/-- C9 counterexample: for the row with target `[1,1,1,1]` and prediction
`[1,2,3,4]`, the code's `np.unique`-based ranks give all four tied targets
rank 0 and a per-sample error of 6, while the claim's stable
index-order tie-breaking gives target ranks 0,1,2,3 and error 0 — so the
claim's description of the per-sample error is false on the code. -/
theorem rank_error_tie_counterexample :
    rowRankDiff [1, 1, 1, 1] [1, 2, 3, 4] = 6
    ∧ claimRowRankDiff [1, 1, 1, 1] [1, 2, 3, 4] = 0 := by
  constructor <;> decide

theorem countP_getD_range (xs : List ℚ) (p : ℚ → Bool) :
    xs.countP p = (List.range xs.length).countP (fun i => p (xs.getD i 0)) := by
  induction xs with
  | nil => rfl
  | cons x xs ih =>
    rw [List.countP_cons, List.length_cons, List.range_succ_eq_map,
      List.countP_cons, List.countP_map]
    have hcomp : ((fun i => p ((x :: xs).getD i 0)) ∘ Nat.succ)
        = fun i => p (xs.getD i 0) := by
      funext i
      rfl
    rw [hcomp, ih]
    rfl

theorem uniqueRank_eq_claimRank (xs : List ℚ) (h : xs.Nodup) :
    uniqueRank xs = claimRank xs := by
  apply List.ext_getElem
  · simp [uniqueRank, claimRank]
  · intro j hj1 hj2
    have hj : j < xs.length := by simpa [uniqueRank] using hj1
    simp only [uniqueRank, claimRank, List.getElem_map, List.getElem_range,
      List.Nodup.dedup h, ← List.countP_eq_length_filter]
    rw [countP_getD_range]
    refine List.countP_congr fun i hi => ?_
    rw [List.mem_range] at hi
    simp only [decide_eq_true_eq]
    constructor
    · intro hlt
      exact Or.inl (by rw [List.getD_eq_getElem xs 0 hj]; exact hlt)
    · intro hor
      rcases hor with hlt | ⟨heqv, hij⟩
      · rw [List.getD_eq_getElem xs 0 hj] at hlt
        exact hlt
      · exfalso
        rw [List.getD_eq_getElem xs 0 hi, List.getD_eq_getElem xs 0 hj] at heqv
        exact absurd ((List.Nodup.getElem_inj_iff h).mp heqv) (by omega)

theorem zipWith_natAbs_self (l : List ℕ) :
    (List.zipWith (fun a b => ((a : ℤ) - (b : ℤ)).natAbs) l l).sum = 0 := by
  induction l with
  | nil => rfl
  | cons a l ih => simp [ih]

/-- C9 amended: the per-sample rank error sums, over the row's positions,
the absolute differences of the target and prediction ranks computed as
positions in the sorted list of distinct values — tied values share a rank
(dense ranking), rather than the claim's stable index-order tie-breaking —
averaged over the batch; on tie-free rows the code's ranking coincides with
the claim's, and the claim's two examples hold: target `[1,2,3,4]` against
prediction `[4,3,2,1]` gives error 8, and identical target and prediction
give 0. -/
theorem rank_error_dense_ranking :
    (∀ t p : List ℚ, t.Nodup → p.Nodup →
        rowRankDiff t p = claimRowRankDiff t p)
    ∧ rank_error [[1, 2, 3, 4]] [[4, 3, 2, 1]] = 8
    ∧ ∀ row : List ℚ, rowRankDiff row row = 0 := by
  refine ⟨?_, ?_, ?_⟩
  · intro t p ht hp
    rw [rowRankDiff, claimRowRankDiff, uniqueRank_eq_claimRank t ht,
      uniqueRank_eq_claimRank p hp]
  · have h : (List.zipWith rowRankDiff [[1, 2, 3, 4]] [[(4 : ℚ), 3, 2, 1]]).sum = 8 := by
      decide
    rw [rank_error, h]
    norm_num
  · intro row
    exact zipWith_natAbs_self (uniqueRank row)

/-- Witness for C9 (amended) on the tie-free rows `[1,2,3,4]` and
`[4,3,2,1]`. -/
theorem rank_error_dense_ranking_witness :
    rowRankDiff [1, 2, 3, 4] [4, 3, 2, 1]
      = claimRowRankDiff [1, 2, 3, 4] [4, 3, 2, 1] :=
  rank_error_dense_ranking.1 [1, 2, 3, 4] [4, 3, 2, 1] (by decide) (by decide)

/-! ### Deterministic-removal feed helper, from
`mixedInputModel.feed_det_remove` (lines 71-85) -/

/-- `N_DENSE`: the number of units in each hidden layer
(`mixedInputModel.py` line 105). -/
def N_DENSE : List ℕ := [512, 512, 512]

/-- `N_HIDDEN`: the number of hidden layers (line 106). -/
def N_HIDDEN : ℕ := N_DENSE.length

/-- `name_det_remove` (lines 64-68): the name of the deterministic removal
placeholder of a hidden layer. -/
def name_det_remove (index : ℕ) : String := "remove_" ++ toString index

/-- `feed_det_remove` (lines 71-85): with `values = none` each layer's
removal placeholder is fed an all-ones vector of its unit count; with
`values = some vs` a `ValueError` is raised when `vs` does not have one
entry per hidden layer, and otherwise each per-layer vector is added to the
feed dictionary verbatim. -/
def feed_det_remove (feed_dict : List (String × List ℚ))
    (values : Option (List (List ℚ))) :
    Except String (List (String × List ℚ)) :=
  match values with
  | none =>
    Except.ok (feed_dict ++ (List.range N_HIDDEN).map
      (fun i => (name_det_remove i, List.replicate (N_DENSE.getD i 0) 1)))
  | some vs =>
    if vs.length ≠ N_HIDDEN then
      Except.error "Values has to be a list with one array for each hidden layer"
    else
      Except.ok (feed_dict ++ (List.range N_HIDDEN).map
        (fun i => (name_det_remove i, vs.getD i [])))

/-- C10: for `values = some vs`, `feed_det_remove` raises `ValueError`
exactly when `vs` does not have one entry per hidden layer (3); when the
length matches, the three per-layer vectors are inserted into the feed
dictionary verbatim, with no validation of their lengths against the unit
counts nor of their entries. -/
theorem feed_det_remove_spec (feed_dict : List (String × List ℚ))
    (vs : List (List ℚ)) :
    ((∃ e, feed_det_remove feed_dict (some vs) = Except.error e) ↔ vs.length ≠ 3)
    ∧ (∀ v0 v1 v2 : List ℚ, vs = [v0, v1, v2] →
        feed_det_remove feed_dict (some vs)
          = Except.ok (feed_dict ++ [(name_det_remove 0, v0),
              (name_det_remove 1, v1), (name_det_remove 2, v2)])) := by
  constructor
  · by_cases h : vs.length = 3
    · have hne : ¬ vs.length ≠ N_HIDDEN := by simp [N_HIDDEN, N_DENSE, h]
      simp only [feed_det_remove, if_neg hne]
      simp [h]
    · have hne : vs.length ≠ N_HIDDEN := by simpa [N_HIDDEN, N_DENSE] using h
      simp only [feed_det_remove, if_pos hne]
      simp [h]
  · intro v0 v1 v2 hvs
    subst hvs
    rfl

/-- Witness for C10: three vectors of mismatched lengths and non-binary
entries are inserted verbatim. -/
theorem feed_det_remove_spec_witness :
    feed_det_remove [] (some [[5], [], [0, 2]])
      = Except.ok ([] ++ [(name_det_remove 0, [5]), (name_det_remove 1, []),
          (name_det_remove 2, [0, 2])]) :=
  (feed_det_remove_spec [] [[5], [], [0, 2]]).2 [5] [] [0, 2] rfl

end GradientPrediction
